import Mathlib

/-!
Shallow embedding of the aria2c download-manager GUI (`aria2c_downloader.py`):
the progress-line parser, the collision-suffix resolution loop, the process
supervisor's terminal behaviour, the URL filename resolver and the submission
state machine of the UI, together with theorems checking the specification's
claims against these definitions.
-/

namespace Aria2

/-! ### Basic string helpers (models of `str`/`os.path` operations) -/

/-- Index of the last occurrence of `c` in `cs` (Python `str.rfind`,
`none` standing for the return value `-1`). -/
def lastIdx (cs : List Char) (c : Char) : Option Nat :=
  match cs with
  | [] => none
  | a :: rest =>
    match lastIdx rest c with
    | some i => some (i + 1)
    | none => if a = c then some 0 else none

/-- Model of `os.path.splitext` (posix flavour): split off the extension
at the last dot, provided it lies after the last `/` and the basename has a
non-dot character before it (leading dots do not start an extension). -/
def splitext (p : String) : String × String :=
  let cs := p.data
  match lastIdx cs '.' with
  | none => (p, "")
  | some d =>
    let s1 := match lastIdx cs '/' with
      | some i => i + 1
      | none => 0
    if s1 ≤ d ∧ ((cs.drop s1).take (d - s1)).any (fun c => c ≠ '.') then
      (⟨cs.take d⟩, ⟨cs.drop d⟩)
    else (p, "")

/-- Model of `os.path.join` (posix flavour, two arguments). -/
def pjoin (a b : String) : String :=
  if b.startsWith "/" then b
  else if a = "" ∨ a.endsWith "/" then a ++ b
  else a ++ "/" ++ b

/-- Model of `os.path.basename` (posix flavour): everything after the last `/`. -/
def pbasename (s : String) : String :=
  ⟨s.data.drop (match lastIdx s.data '/' with
    | some i => i + 1
    | none => 0)⟩

/-! ### Progress Parser: the percent regex `(\d{1,3})%` -/

/-- Numeric value of a digit string (what Python's `int` computes on the
matched group, which consists of one to three decimal digits). -/
def digitsToNat (ds : List Char) : Nat :=
  ds.foldl (fun a c => a * 10 + (c.toNat - '0'.toNat)) 0

/-- One attempt of the regex `(\d{1,3})%` at the start of `cs`: the greedy
digit class with backtracking matches here exactly when the maximal digit run
at the head has length 1 to 3 and is immediately followed by `%`. -/
def pctAt (cs : List Char) : Option Nat :=
  if 1 ≤ (cs.takeWhile Char.isDigit).length ∧ (cs.takeWhile Char.isDigit).length ≤ 3 then
    match cs.drop (cs.takeWhile Char.isDigit).length with
    | '%' :: _ => some (digitsToNat (cs.takeWhile Char.isDigit))
    | _ => none
  else none

/-- `re.search` of `(\d{1,3})%`: try every position left to right, return the
value of the first (leftmost) match's digit group. -/
def pctSearch (cs : List Char) : Option Nat :=
  match cs with
  | [] => none
  | _ :: rest =>
    match pctAt cs with
    | some v => some v
    | none => pctSearch rest

/-- Clamping of the parsed percent into `[0,100]` (lines 130-133 of the
source; the `pct < 0` branch is unreachable for a digits-only group, so the
value is a `Nat` and only the upper clamp is live). -/
def clampPct (n : Nat) : Nat := if 100 < n then 100 else n

/-- The percent event payload extracted from one output line, if any. -/
def linePercent (s : String) : Option Nat := (pctSearch s.data).map clampPct

/-! ### Progress Parser: the speed regex `([\d\.]+(?:KiB|MiB|GiB)/s)` -/

/-- Character class `[\d\.]`. -/
def isNumDot (c : Char) : Bool := c.isDigit ∨ c = '.'

/-- The three alternatives `KiB/s`, `MiB/s`, `GiB/s` as suffix candidates. -/
def speedUnits : List (List Char) :=
  [['K', 'i', 'B', '/', 's'], ['M', 'i', 'B', '/', 's'], ['G', 'i', 'B', '/', 's']]

/-- One attempt of the speed regex at the start of `cs`: the greedy class run
(backtracking cannot help, since no unit begins with a class character)
followed by one of the unit alternatives; returns the whole matched token. -/
def speedAt (cs : List Char) : Option (List Char) :=
  let ds := cs.takeWhile isNumDot
  if 1 ≤ ds.length then
    match speedUnits.find? (fun u => u.isPrefixOf (cs.drop ds.length)) with
    | some u => some (ds ++ u)
    | none => none
  else none

/-- `re.search` of the speed regex: leftmost match, token passed verbatim. -/
def speedSearch (cs : List Char) : Option (List Char) :=
  match cs with
  | [] => none
  | _ :: rest =>
    match speedAt cs with
    | some v => some v
    | none => speedSearch rest

/-- The speed event payload extracted from one output line, if any. -/
def lineSpeed (s : String) : Option String := (speedSearch s.data).map (⟨·⟩)

/-! ### Progress Parser: the ETA regex `ETA\s+([0-9:\-]+)` -/

/-- Python's `\s` on ASCII text. -/
def isPySpace (c : Char) : Bool :=
  c = ' ' ∨ c = '\t' ∨ c = '\n' ∨ c = '\r' ∨ c = '\x0b' ∨ c = '\x0c'

/-- Character class `[0-9:\-]`. -/
def isEtaChar (c : Char) : Bool := c.isDigit ∨ c = ':' ∨ c = '-'

/-- One attempt of the ETA regex at the start of `cs`: the literal `ETA`,
one or more whitespace characters, then the greedy time-token class run,
which is returned (the capture group). -/
def etaAt (cs : List Char) : Option (List Char) :=
  match cs with
  | 'E' :: 'T' :: 'A' :: rest =>
    let ws := rest.takeWhile isPySpace
    if 1 ≤ ws.length then
      let tok := (rest.drop ws.length).takeWhile isEtaChar
      if 1 ≤ tok.length then some tok else none
    else none
  | _ => none

/-- `re.search` of the ETA regex: leftmost match, group passed verbatim. -/
def etaSearch (cs : List Char) : Option (List Char) :=
  match cs with
  | [] => none
  | _ :: rest =>
    match etaAt cs with
    | some v => some v
    | none => etaSearch rest

/-- The ETA event payload extracted from one output line, if any. -/
def lineEta (s : String) : Option String := (etaSearch s.data).map (⟨·⟩)

/-! ### Events and the per-line event emission of `_run_aria2` -/

/-- The six signals of `DownloadSignals`, for one task. -/
inductive Ev where
  | progress (pct : Nat)
  | speed (text : String)
  | eta (text : String)
  | status (text : String)
  | finished (path : String)
  | failed (msg : String)
deriving DecidableEq, Repr

/-- The status text emitted for a non-empty line (line 151 of the source):
verbatim when strictly shorter than 120 characters, otherwise the first 120
characters with the `"..."` marker appended. -/
def statusText (t : String) : String :=
  if t.length < 120 then t else t.take 120 ++ "..."

/-- Events emitted by the streaming loop of `_run_aria2` for one (already
decoded and stripped) output line: percent, speed and ETA matches in that
order, then the catch-all status update for a non-empty line. -/
def lineEvents (t : String) : List Ev :=
  (match linePercent t with
    | some v => [Ev.progress v]
    | none => []) ++
  (match lineSpeed t with
    | some v => [Ev.speed v]
    | none => []) ++
  (match lineEta t with
    | some v => [Ev.eta v]
    | none => []) ++
  (if 0 < t.length then [Ev.status (statusText t)] else [])

/-! ### Collision-suffix resolution (lines 162-174 of the source) -/

/-- The candidate path `f"{base}_{i}{ext}"`. -/
def suffixed (base ext : String) (i : Nat) : String :=
  base ++ "_" ++ toString i ++ ext

/-- The probing `while os.path.exists(new_path)` loop, starting at index `i`.
`fuel` bounds the number of iterations modelled (the source loop runs
unboundedly; every theorem assumes a free name is reached within `fuel`). -/
def findFree (ex : String → Bool) (base ext : String) : Nat → Nat → Nat
  | 0, i => i
  | fuel + 1, i =>
    if ex (suffixed base ext i) = true then findFree ex base ext fuel (i + 1) else i

/-- The final placement path: the destination path itself when it does not
exist, otherwise the first free suffixed candidate `base_i ext`, probing from
`i = 1`. `ex` is the filesystem existence predicate (`os.path.exists`). -/
def resolvedPath (ex : String → Bool) (fuel : Nat) (fp : String) : String :=
  if ex fp = true then
    suffixed (splitext fp).1 (splitext fp).2 (findFree ex (splitext fp).1 (splitext fp).2 fuel 1)
  else fp

/-! ### Process supervisor: terminal behaviour of `_run_aria2` (lines 154-191) -/

/-- The start status emitted before spawning the tool (line 107). -/
def startMsg : String := "대기 → 시작"

/-- Events emitted after `process.wait()` returns `rc`. `moveErr` models the
outcome of `shutil.move` (`none`: moved; `some e`: the exception message),
consulted only on the `rc = 0` branch. -/
def runFinishEvents (ex : String → Bool) (fuel : Nat) (folder filename : String)
    (rc : Int) (moveErr : Option String) : List Ev :=
  if rc = 0 then
    [Ev.progress 100, Ev.speed "", Ev.eta "00:00:00",
     Ev.status "다운로드 완료, 파일 이동 중..."] ++
    (match moveErr with
     | none => [Ev.finished (resolvedPath ex fuel (pjoin folder filename)), Ev.status "완료"]
     | some e => [Ev.failed ("파일 이동 실패: " ++ e), Ev.status "이동 실패"])
  else
    [Ev.failed ("aria2c 실패 (코드 " ++ toString rc ++ ")"),
     Ev.status ("실패 (코드 " ++ toString rc ++ ")")]

/-- The file move performed on the success branch: source is the staged file
`os.path.join(temp_dir, filename)`, destination the collision-resolved final
path; no move happens on a non-zero exit code. -/
def runFinishMove (ex : String → Bool) (fuel : Nat) (folder filename tempDir : String)
    (rc : Int) : Option (String × String) :=
  if rc = 0 then
    some (pjoin tempDir filename, resolvedPath ex fuel (pjoin folder filename))
  else none

/-- How one supervised run of `_run_aria2` can end, together with the output
lines consumed before that point. -/
inductive RunOutcome where
  | spawnFail (msg : String)
  | streamExc (lines : List String) (msg : String)
  | exited (lines : List String) (rc : Int) (moveErr : Option String)
deriving DecidableEq, Repr

/-- All events `_run_aria2` itself emits for one job.  On `spawnFail` only the
start status is emitted and the exception escapes to the worker; on
`streamExc` the `except` block (lines 184-191) emits the failure; on `exited`
the terminal branch (lines 154-183) runs. -/
def superviseEvents (ex : String → Bool) (fuel : Nat) (folder filename : String) :
    RunOutcome → List Ev
  | .spawnFail _ => [Ev.status startMsg]
  | .streamExc lines m =>
    [Ev.status startMsg] ++ lines.flatMap lineEvents ++
    [Ev.failed m, Ev.status ("예외: " ++ m)]
  | .exited lines rc moveErr =>
    [Ev.status startMsg] ++ lines.flatMap lineEvents ++
    runFinishEvents ex fuel folder filename rc moveErr

/-- The exception escaping `_run_aria2`, if any: only a spawn failure is
raised before the `try` block and reaches the worker. -/
def superviseRaises : RunOutcome → Option String
  | .spawnFail m => some m
  | _ => none

/-- Whether the `except` handler forcibly killed the child (`process.kill()`,
line 187): exactly on the streaming-exception path. -/
def superviseKilled : RunOutcome → Bool
  | .streamExc _ _ => true
  | _ => false

/-- Events observed for one job after the worker's own handler (lines 70-78):
whatever `_run_aria2` emitted, plus one `failed` if it raised. -/
def workerJobEvents (ex : String → Bool) (fuel : Nat) (folder filename : String)
    (o : RunOutcome) : List Ev :=
  superviseEvents ex fuel folder filename o ++
  (match superviseRaises o with
   | some m => [Ev.failed m]
   | none => [])

/-- Whether an outcome is a failure path of the run. -/
def isFailureOutcome : RunOutcome → Bool
  | .spawnFail _ => true
  | .streamExc _ _ => true
  | .exited _ rc moveErr => if rc = 0 then moveErr.isSome else true

/-- Number of `failed` events in a stream. -/
def countFailed (evs : List Ev) : Nat :=
  (evs.filter fun e => match e with
    | .failed _ => true
    | _ => false).length

/-- Number of `finished` events in a stream. -/
def countFinished (evs : List Ev) : Nat :=
  (evs.filter fun e => match e with
    | .finished _ => true
    | _ => false).length

/-- One job as processed by a worker: its placement data and how its run ends. -/
structure JobRun where
  folder : String
  filename : String
  outcome : RunOutcome
deriving DecidableEq, Repr

/-- The worker loop (`while True` of `_worker`) over a list of queued jobs:
every job is processed in turn; a failure of one job never stops the loop. -/
def workerRunAll (ex : String → Bool) (fuel : Nat) (jobs : List JobRun) : List Ev :=
  jobs.flatMap fun j => workerJobEvents ex fuel j.folder j.filename j.outcome

/-! ### Filename resolver: `urllib.parse` and `_get_filename_from_url` -/

/-- The characters allowed in a URL scheme after the leading letter. -/
def isSchemeChar (c : Char) : Bool :=
  c.isAlphanum ∨ c = '+' ∨ c = '-' ∨ c = '.'

/-- The result of `urllib.parse.urlparse`. -/
structure UrlParts where
  scheme : String
  netloc : String
  path : String
  params : String
  query : String
  fragment : String
deriving DecidableEq, Repr

/-- Scheme extraction of `urlsplit`: a leading letter followed by scheme
characters up to the first `:` is the (lowercased) scheme. -/
def splitScheme (cs : List Char) : List Char × List Char :=
  let pre := cs.takeWhile (fun c => c ≠ ':')
  if pre.length < cs.length ∧ 0 < pre.length ∧
      (cs.headD ' ').isAlpha ∧ pre.all isSchemeChar then
    (pre.map Char.toLower, cs.drop (pre.length + 1))
  else ([], cs)

/-- Netloc extraction of `urlsplit`: after a leading `//`, everything up to
the next `/`, `?` or `#`. -/
def splitNetloc (cs : List Char) : List Char × List Char :=
  match cs with
  | '/' :: '/' :: rest =>
    let nl := rest.takeWhile (fun c => c ≠ '/' ∧ c ≠ '?' ∧ c ≠ '#')
    (nl, rest.drop nl.length)
  | _ => ([], cs)

/-- Split at the first occurrence of `ch`: `(before, after)`, the separator
dropped; `(cs, [])` when absent (matching `str.split(ch, 1)`). -/
def splitAtFirst (cs : List Char) (ch : Char) : List Char × List Char :=
  let pre := cs.takeWhile (fun c => c ≠ ch)
  (pre, (cs.drop pre.length).drop 1)

/-- `_splitparams` of `urlparse`: split path parameters at the first `;`
after the last `/` (or anywhere, when the path has no `/`). -/
def splitParams (cs : List Char) : List Char × List Char :=
  match lastIdx cs '/' with
  | some k =>
    let tail := cs.drop k
    let pre := tail.takeWhile (fun c => c ≠ ';')
    if pre.length < tail.length then
      (cs.take (k + pre.length), tail.drop (pre.length + 1))
    else (cs, [])
  | none =>
    let pre := cs.takeWhile (fun c => c ≠ ';')
    if pre.length < cs.length then (pre, cs.drop (pre.length + 1))
    else (cs, [])

/-- The schemes for which `urlparse` separates path parameters
(`uses_params` minus the empty entry, plus it). -/
def usesParams : List String :=
  ["", "ftp", "hdl", "prospero", "http", "imap", "https", "shttp", "rtsp",
   "rtsps", "rtspu", "sip", "sips", "snews", "tel", "fax", "nntp"]

/-- Model of `urllib.parse.urlparse`: scheme, netloc, fragment and query are
split off in `urlsplit`'s order, then path parameters when the scheme uses
them. -/
def urlparse (url : String) : UrlParts :=
  let (sch, r1) := splitScheme url.data
  let (nl, r2) := splitNetloc r1
  let (r3, frag) := splitAtFirst r2 '#'
  let (r4, q) := splitAtFirst r3 '?'
  let scheme : String := ⟨sch⟩
  if scheme ∈ usesParams ∧ ';' ∈ r4 then
    let (pth, prm) := splitParams r4
    ⟨scheme, ⟨nl⟩, ⟨pth⟩, ⟨prm⟩, ⟨q⟩, ⟨frag⟩⟩
  else
    ⟨scheme, ⟨nl⟩, ⟨r4⟩, "", ⟨q⟩, ⟨frag⟩⟩

/-- `str.split(sep)` on characters: always a non-empty list of pieces. -/
def splitOnChar (sep : Char) : List Char → List (List Char)
  | [] => [[]]
  | c :: rest =>
    if c = sep then [] :: splitOnChar sep rest
    else
      match splitOnChar sep rest with
      | h :: t => (c :: h) :: t
      | [] => [[c]]

/-- Value of a hexadecimal digit. -/
def hexVal (c : Char) : Option Nat :=
  if c.isDigit then some (c.toNat - '0'.toNat)
  else if 'a' ≤ c ∧ c ≤ 'f' then some (c.toNat - 'a'.toNat + 10)
  else if 'A' ≤ c ∧ c ≤ 'F' then some (c.toNat - 'A'.toNat + 10)
  else none

/-- Decoding of one `%`-delimited chunk of `urllib.parse.unquote`: a leading
pair of hex digits becomes the character of that code, otherwise the `%` is
kept as-is. -/
def pctDecodePart (p : List Char) : List Char :=
  match p with
  | a :: b :: rest =>
    match hexVal a, hexVal b with
    | some x, some y => Char.ofNat (16 * x + y) :: rest
    | _, _ => '%' :: p
  | _ => '%' :: p

/-- Percent-decoding of `urllib.parse.unquote`, at the byte/ASCII level,
following CPython's split-on-`%` structure: the text before the first `%` is
kept, and every later chunk is decoded with `pctDecodePart`.  (CPython
assembles consecutive escaped bytes and UTF-8-decodes them; this model is
faithful for ASCII escape sequences.) -/
def pctDecode (cs : List Char) : List Char :=
  match splitOnChar '%' cs with
  | [] => cs
  | first :: parts => first ++ parts.flatMap pctDecodePart

/-- Model of `urllib.parse.unquote_plus`: `+` becomes a space, then
percent-escapes are decoded. -/
def unquotePlus (cs : List Char) : List Char :=
  pctDecode (cs.map fun c => if c = '+' then ' ' else c)

/-- Model of `urllib.parse.parse_qsl` with default arguments: split the query
on `&`; skip empty chunks, chunks without `=` and chunks with an empty raw
value; decode names and values with `unquote_plus`. -/
def parseQsl (qs : String) : List (String × String) :=
  (splitOnChar '&' qs.data).filterMap fun nv =>
    if nv.isEmpty then none
    else
      let name := nv.takeWhile (fun c => c ≠ '=')
      if name.length = nv.length then none
      else
        let value := nv.drop (name.length + 1)
        if value.isEmpty then none
        else some (⟨unquotePlus name⟩, ⟨unquotePlus value⟩)

/-- `parse_qs(qs)[key][0]` together with the `key in parse_qs(qs)` test:
the first parsed value for `key`, if any. -/
def qsFirst (qs key : String) : Option String :=
  ((parseQsl qs).filter fun p => p.1 = key).head?.map (·.2)

/-- The raw (still encoded) text standing between `key=` and the next `&` in
a query string: what the query literally carries for `key`, before any
form decoding. -/
def rawQueryValue (qs key : String) : Option String :=
  ((splitOnChar '&' qs.data).filterMap fun nv =>
    let name := nv.takeWhile (fun c => c ≠ '=')
    if name.length < nv.length ∧ name = key.data then
      some (String.mk (nv.drop (name.length + 1)))
    else none).head?

/-- Model of `DownloaderUI._get_filename_from_url` (lines 353-366): the
site-specific query-parameter override for `rule34video.com`, otherwise the
last path segment with anything from `?` on stripped, defaulting to
`"download"` when the segment is empty. -/
def getFilenameFromUrl (url : String) : String :=
  let p := urlparse url
  let viaQuery : Option String :=
    if p.netloc = "rule34video.com" then qsFirst p.query "download_filename"
    else none
  match viaQuery with
  | some v => v
  | none =>
    let filename := pbasename p.path
    if filename = "" then "download"
    else ⟨filename.data.takeWhile (fun c => c ≠ '?')⟩

/-! ### UI submission state machine (`DownloaderUI`) -/

/-- The bookkeeping of `DownloaderUI` relevant to submission: the id counter,
the active-URL set, the id-to-URL map and the jobs handed to the manager's
queue (id, url, folder, filename). -/
structure UIState where
  nextId : Nat
  activeUrls : List String
  urlById : List (Nat × String)
  queued : List (Nat × String × String × String)
deriving DecidableEq, Repr

/-- The synchronous result of a submission attempt. -/
inductive SubmitOutcome where
  | emptyUrl
  | duplicateUrl
  | fileExists
  | added (id : Nat)
deriving DecidableEq, Repr

/-- Set-insert into the active-URL set (`set.add`). -/
def setInsert (l : List String) (u : String) : List String :=
  if u ∈ l then l else u :: l

/-- Model of `DownloaderUI._add_task` (lines 369-409): resolve the filename,
reject when the destination file already exists (`ex` is `os.path.exists`),
otherwise allocate an id, register the URL as active and enqueue the job. -/
def addTask (ex : String → Bool) (st : UIState) (url savePath : String) :
    UIState × SubmitOutcome :=
  let filename := getFilenameFromUrl url
  let finalPath := pjoin savePath filename
  if ex finalPath = true then (st, .fileExists)
  else
    let id := st.nextId
    ({ nextId := id + 1,
       activeUrls := setInsert st.activeUrls url,
       urlById := st.urlById ++ [(id, url)],
       queued := st.queued ++ [(id, url, savePath, filename)] }, .added id)

/-- Model of `DownloaderUI._add_task_from_input` (lines 339-351): reject an
empty URL, reject a URL already in the active set, otherwise `_add_task`. -/
def addTaskFromInput (ex : String → Bool) (st : UIState) (url savePath : String) :
    UIState × SubmitOutcome :=
  if url = "" then (st, .emptyUrl)
  else if url ∈ st.activeUrls then (st, .duplicateUrl)
  else addTask ex st url savePath

/-- Model of `DownloaderUI._add_task_on_resume` (lines 411-445): no existence
check and no duplicate check — the job is always constructed and enqueued. -/
def addTaskOnResume (st : UIState) (url savePath : String) :
    UIState × SubmitOutcome :=
  let filename := getFilenameFromUrl url
  let id := st.nextId
  ({ nextId := id + 1,
     activeUrls := setInsert st.activeUrls url,
     urlById := st.urlById ++ [(id, url)],
     queued := st.queued ++ [(id, url, savePath, filename)] }, .added id)

/-- The active-set removal shared by `_on_finished` and `_on_failed`
(lines 500-502 and 509-511): look the task's URL up and, when it is truthy
(`if url:` — a missing entry or an empty string is falsy and skips the
removal), discard it. -/
def discardUrl (st : UIState) (taskId : Nat) : UIState :=
  match st.urlById.lookup taskId with
  | some u =>
    if u = "" then st
    else { st with activeUrls := st.activeUrls.filter fun x => x ≠ u }
  | none => st

/-! ### Task State Store (`closeEvent` / `_load_saved_tasks`) -/

/-- One persisted unfinished-task record (`{"url": ..., "save_path": ...}`). -/
structure TaskRec where
  url : String
  savePath : String
deriving DecidableEq, Repr

/-- Replaying a list of records through `_add_task_on_resume`, in order. -/
def replayAll (st : UIState) (ts : List TaskRec) : UIState :=
  ts.foldl (fun s t => (addTaskOnResume s t.url t.savePath).1) st

/-- Model of `DownloaderUI._load_saved_tasks` (lines 568-579).  The settings
slot `"unfinished_tasks"` is modelled as `Option (List TaskRec)`: `some ts`
is a stored JSON array (truthy even for `[]`), `none` is any falsy value
(unset or the empty string written after replay).  Returns the new slot
value, the new UI state, and the records replayed by this call. -/
def loadSavedTasks (slot : Option (List TaskRec)) (st : UIState) :
    Option (List TaskRec) × UIState × List TaskRec :=
  match slot with
  | none => (none, st, [])
  | some ts => (none, replayAll st ts, ts)

/-! ### Derived observation functions and concrete fixtures -/

/-- An occurrence, anywhere in the line, of a one-to-three-digit integer
immediately followed by `%`; `n` is the integer's value. -/
def PctOcc (cs : List Char) (n : Nat) : Prop :=
  ∃ pre ds post, cs = pre ++ ds ++ '%' :: post ∧ ds ≠ [] ∧ ds.length ≤ 3 ∧
    (∀ c ∈ ds, c.isDigit = true) ∧ digitsToNat ds = n

/-- Whether an event is a status update. -/
def isStatusEv : Ev → Bool
  | .status _ => true
  | _ => false

/-- The raw (unclamped) per-line percent values matched over a run's output. -/
def rawPercentSeq (lines : List String) : List Nat :=
  lines.filterMap fun l => pctSearch l.data

/-- The progress-percent values emitted over a run's output lines, in order. -/
def percentSeq (lines : List String) : List Nat :=
  lines.filterMap linePercent

/-- A line of exactly 120 characters. -/
def sample120 : String := ⟨List.replicate 120 'a'⟩

/-- A UI state with one active (queued) job for URL `http://u`. -/
def st0 : UIState :=
  ⟨1, ["http://u"], [(0, "http://u")], [(0, "http://u", "/d", "download")]⟩

/-- A URL for the site-specific override whose query value carries a `+`. -/
def r34url : String := "https://rule34video.com/video?download_filename=a+b.mp4"

/-! ### Helper lemmas on the percent search -/

theorem takeWhile_all_append_cons (p : Char → Bool) (ds : List Char) (c : Char)
    (post : List Char) (h : ∀ x ∈ ds, p x = true) (hc : p c = false) :
    (ds ++ c :: post).takeWhile p = ds := by
  induction ds with
  | nil => simp [List.takeWhile_cons, hc]
  | cons a tl ih =>
    have ha : p a = true := h a (List.mem_cons_self a tl)
    simp [List.takeWhile_cons, ha, ih fun x hx => h x (List.mem_cons_of_mem a hx)]

theorem takeWhile_append_drop_length (p : Char → Bool) (l : List Char) :
    l.takeWhile p ++ l.drop (l.takeWhile p).length = l := by
  obtain ⟨t, ht⟩ := List.takeWhile_prefix p (l := l)
  have h2 := List.drop_left (l.takeWhile p) t
  rw [ht] at h2
  rw [h2, ht]

theorem pctAt_sound (cs : List Char) (v : Nat) (h : pctAt cs = some v) :
    ∃ ds post, cs = ds ++ '%' :: post ∧ ds ≠ [] ∧ ds.length ≤ 3 ∧
      (∀ c ∈ ds, c.isDigit = true) ∧ digitsToNat ds = v := by
  unfold pctAt at h
  split at h
  · rename_i hlen
    split at h
    · rename_i tail heq
      simp only [Option.some.injEq] at h
      refine ⟨cs.takeWhile Char.isDigit, tail, ?_, ?_, hlen.2, ?_, h⟩
      · conv_lhs => rw [← takeWhile_append_drop_length Char.isDigit cs]
        rw [heq]
      · intro hnil
        rw [hnil] at hlen
        simp at hlen
      · intro x hx
        exact List.mem_takeWhile_imp hx
    · cases h
  · cases h

theorem pctAt_of_head (ds post : List Char) (hne : ds ≠ []) (hlen : ds.length ≤ 3)
    (hdig : ∀ c ∈ ds, c.isDigit = true) :
    pctAt (ds ++ '%' :: post) = some (digitsToNat ds) := by
  have htw : (ds ++ '%' :: post).takeWhile Char.isDigit = ds :=
    takeWhile_all_append_cons Char.isDigit ds '%' post hdig (by decide)
  have h1 : 1 ≤ ds.length := by
    cases ds with
    | nil => exact absurd rfl hne
    | cons a tl => simp
  unfold pctAt
  rw [htw, if_pos ⟨h1, hlen⟩, List.drop_left]
  rfl

theorem pctSearch_of_pctAt (cs : List Char) (v : Nat) (h : pctAt cs = some v) :
    pctSearch cs = some v := by
  cases cs with
  | nil => simp [pctAt] at h
  | cons a rest =>
    unfold pctSearch
    rw [h]

theorem pctSearch_sound (cs : List Char) (v : Nat) (h : pctSearch cs = some v) :
    PctOcc cs v := by
  induction cs with
  | nil => cases h
  | cons a rest ih =>
    unfold pctSearch at h
    cases hat : pctAt (a :: rest) with
    | some w =>
      rw [hat] at h
      simp only [Option.some.injEq] at h
      obtain ⟨ds, post, hcs, hne, hlen, hdig, hval⟩ := pctAt_sound (a :: rest) w hat
      refine ⟨[], ds, post, by simpa using hcs, hne, hlen, hdig, ?_⟩
      rw [hval]
      exact h
    | none =>
      rw [hat] at h
      obtain ⟨pre, ds, post, hcs, hne, hlen, hdig, hval⟩ := ih h
      exact ⟨a :: pre, ds, post, by simp [hcs], hne, hlen, hdig, hval⟩

theorem pctSearch_complete (cs : List Char) (n : Nat) (h : PctOcc cs n) :
    ∃ v, pctSearch cs = some v := by
  induction cs with
  | nil =>
    obtain ⟨pre, ds, post, hcs, hne, _, _, _⟩ := h
    exact absurd hcs.symm (by simp)
  | cons a rest ih =>
    obtain ⟨pre, ds, post, hcs, hne, hlen, hdig, hval⟩ := h
    cases pre with
    | nil =>
      simp only [List.nil_append] at hcs
      rw [hcs]
      exact ⟨digitsToNat ds,
        pctSearch_of_pctAt _ _ (pctAt_of_head ds post hne hlen hdig)⟩
    | cons b pre' =>
      simp only [List.cons_append] at hcs
      injection hcs with hab hrest'
      have hrest : PctOcc rest n := ⟨pre', ds, post, hrest', hne, hlen, hdig, hval⟩
      obtain ⟨v, hv⟩ := ih hrest
      unfold pctSearch
      cases hat : pctAt (a :: rest) with
      | some w => exact ⟨w, rfl⟩
      | none => exact ⟨v, hv⟩

theorem pctAt_has_pct (cs : List Char) (v : Nat) (h : pctAt cs = some v) :
    '%' ∈ cs := by
  obtain ⟨ds, post, hcs, _, _, _, _⟩ := pctAt_sound cs v h
  rw [hcs]
  exact List.mem_append_right ds (List.mem_cons_self '%' post)

theorem pctSearch_none_of_no_pct (cs : List Char) (h : '%' ∉ cs) :
    pctSearch cs = none := by
  induction cs with
  | nil => rfl
  | cons a rest ih =>
    unfold pctSearch
    cases hat : pctAt (a :: rest) with
    | some w => exact absurd (pctAt_has_pct (a :: rest) w hat) h
    | none => exact ih fun hm => h (List.mem_cons_of_mem a hm)

/-! ### Claim theorems -/

/-- C5: a line containing a one-to-three-digit integer immediately followed
by `%` yields a percent update whose value is such an integer clamped into
`[0,100]` (the leftmost regex match); a line without a `%` character yields
no percent update (the parser is a total function, so a malformed token can
never raise); in particular `"37%"` yields 37 and `"137%"` yields 100. -/
theorem c5_percent_parsing (s : String) :
    ((∃ n, PctOcc s.data n) →
      ∃ n, PctOcc s.data n ∧ linePercent s = some (clampPct n)) ∧
    ('%' ∉ s.data → linePercent s = none) ∧
    linePercent "37%" = some 37 ∧ linePercent "137%" = some 100 := by
  refine ⟨?_, ?_, by decide, by decide⟩
  · rintro ⟨n, hocc⟩
    obtain ⟨v, hv⟩ := pctSearch_complete s.data n hocc
    exact ⟨v, pctSearch_sound s.data v hv, by rw [linePercent, hv]; rfl⟩
  · intro hnp
    rw [linePercent, pctSearch_none_of_no_pct s.data hnp]
    rfl

/-- C5 witness: the hypotheses discharged on the concrete lines `"137%"`
(which has a matched occurrence) and `"abc"` (which has no `%`). -/
theorem c5_percent_parsing_witness :
    (∃ n, PctOcc "137%".data n ∧ linePercent "137%" = some (clampPct n)) ∧
    linePercent "abc" = none :=
  ⟨(c5_percent_parsing "137%").1
      ⟨137, [], ['1', '3', '7'], [], by decide, by decide, by decide,
        by decide, by decide⟩,
    (c5_percent_parsing "abc").2.1 (by decide)⟩

set_option maxRecDepth 8192 in
/-- C8 counterexample: a line of exactly 120 characters is not emitted
verbatim even though it is within the 120-character bound (and not longer
than it): the code's cutoff is strict (`len(text) < 120`), so the marker is
appended already at length 120. -/
theorem c8_boundary_cex :
    sample120.length = 120 ∧ 0 < sample120.length ∧
    Ev.status sample120 ∉ lineEvents sample120 := by decide

/-- C8 (amended): every non-empty line emits exactly one status update; its
text is the line verbatim when the line is strictly shorter than 120
characters and the first 120 characters followed by the `"..."` marker when
the length is at least 120; an empty line emits no event of any kind. -/
theorem c8_status_updates :
    (∀ t : String, (lineEvents t).filter isStatusEv =
      if 0 < t.length then [Ev.status (statusText t)] else []) ∧
    lineEvents "" = [] ∧
    (∀ t : String, t.length < 120 → statusText t = t) ∧
    (∀ t : String, 120 ≤ t.length → statusText t = t.take 120 ++ "...") := by
  refine ⟨?_, by decide, ?_, ?_⟩
  · intro t
    unfold lineEvents
    cases linePercent t <;> cases lineSpeed t <;> cases lineEta t <;>
      by_cases ht : 0 < t.length <;>
      simp [isStatusEv, ht, List.filter_append]
  · intro t h
    unfold statusText
    rw [if_pos h]
  · intro t h
    unfold statusText
    rw [if_neg (by omega)]

/-- C8 witness: the truncation conditions discharged on a 3-character line
and on the 120-character line. -/
theorem c8_status_updates_witness :
    statusText "abc" = "abc" ∧
    statusText sample120 = sample120.take 120 ++ "..." :=
  ⟨c8_status_updates.2.2.1 "abc" (by decide),
   c8_status_updates.2.2.2 sample120 (by decide)⟩

/-- C9 counterexample: the supervisor emits whatever percent each line
carries, so a tool printing `50%` then `30%` produces a strictly decreasing
emitted sequence — the code never enforces monotonicity. -/
theorem c9_monotonic_cex :
    ¬ List.Chain' (fun a b => a ≤ b) (percentSeq ["50%", "30%"]) := by
  have h : percentSeq ["50%", "30%"] = [50, 30] := by decide
  rw [h]
  intro hc
  exact absurd (List.chain'_cons.mp hc).1 (by omega)

/-- C9 (amended): every emitted progress value is an integer clamped into
`[0,100]`, and the emitted sequence is monotonically non-decreasing whenever
the raw percentages in the tool's output lines are non-decreasing (clamping
preserves order); monotonicity against a regressing tool is not enforced. -/
theorem c9_percent_range (lines : List String) :
    (∀ v ∈ percentSeq lines, v ≤ 100) ∧
    (List.Chain' (fun a b => a ≤ b) (rawPercentSeq lines) →
      List.Chain' (fun a b => a ≤ b) (percentSeq lines)) := by
  have hmap : percentSeq lines = (rawPercentSeq lines).map clampPct := by
    rw [percentSeq, rawPercentSeq, List.map_filterMap]
    rfl
  constructor
  · intro v hv
    rw [hmap] at hv
    obtain ⟨u, _, rfl⟩ := List.mem_map.mp hv
    unfold clampPct
    split <;> omega
  · intro hc
    rw [hmap, List.chain'_map]
    refine List.Chain'.imp ?_ hc
    intro a b hab
    unfold clampPct
    split <;> split <;> omega

/-- C9 witness: the range and the conditional monotonicity discharged on the
concrete non-decreasing run `10%`, `20%`. -/
theorem c9_percent_range_witness :
    (10 : Nat) ≤ 100 ∧
    List.Chain' (fun a b => a ≤ b) (percentSeq ["10%", "20%"]) :=
  ⟨(c9_percent_range ["10%", "20%"]).1 10 (by decide),
   (c9_percent_range ["10%", "20%"]).2 (by
      have h : rawPercentSeq ["10%", "20%"] = [10, 20] := by decide
      rw [h]
      exact List.chain'_cons.mpr ⟨by omega, List.chain'_singleton 20⟩)⟩

theorem findFree_least (ex : String → Bool) (b e : String) :
    ∀ (fuel i k : Nat), i ≤ k → k < i + fuel → ex (suffixed b e k) = false →
      i ≤ findFree ex b e fuel i ∧
      ex (suffixed b e (findFree ex b e fuel i)) = false ∧
      ∀ j, i ≤ j → j < findFree ex b e fuel i → ex (suffixed b e j) = true := by
  intro fuel
  induction fuel with
  | zero =>
    intro i k h1 h2 _
    omega
  | succ f ih =>
    intro i k h1 h2 hk
    have hdef : findFree ex b e (f + 1) i =
        if ex (suffixed b e i) = true then findFree ex b e f (i + 1) else i := rfl
    by_cases hi : ex (suffixed b e i) = true
    · have hik : i ≠ k := by
        intro hh
        rw [hh, hk] at hi
        cases hi
      have hstep : findFree ex b e (f + 1) i = findFree ex b e f (i + 1) := by
        rw [hdef, if_pos hi]
      obtain ⟨ha, hb, hc⟩ := ih (i + 1) k (by omega) (by omega) hk
      rw [hstep]
      refine ⟨by omega, hb, fun j hj1 hj2 => ?_⟩
      rcases Nat.eq_or_lt_of_le hj1 with hj | hj
      · rw [← hj]
        exact hi
      · exact hc j hj hj2
    · have hstep : findFree ex b e (f + 1) i = i := by
        rw [hdef, if_neg hi]
      rw [hstep]
      exact ⟨Nat.le_refl i, by
        cases hx : ex (suffixed b e i)
        · rfl
        · exact absurd hx hi, fun j hj1 hj2 => by omega⟩

/-- C4: when the destination path exists, the placement path is the suffixed
candidate `base_m ext` for the least `m ≥ 1` whose candidate does not exist
(assuming a free candidate occurs within the probing budget `fuel`; the
source loop would not terminate otherwise); concretely, with `out/report.pdf`
and `out/report_1.pdf` both existing a new `report.pdf` is placed at
`out/report_2.pdf`; and the staged source of the move keeps the job's
original, unrewritten filename. -/
theorem c4_collision_suffix :
    (∀ (ex : String → Bool) (fuel : Nat) (fp : String) (k : Nat),
      1 ≤ k → k ≤ fuel →
      ex (suffixed (splitext fp).1 (splitext fp).2 k) = false →
      ex fp = true →
      ∃ m, resolvedPath ex fuel fp = suffixed (splitext fp).1 (splitext fp).2 m ∧
        1 ≤ m ∧ ex (suffixed (splitext fp).1 (splitext fp).2 m) = false ∧
        ∀ j, 1 ≤ j → j < m → ex (suffixed (splitext fp).1 (splitext fp).2 j) = true) ∧
    resolvedPath
      (fun p => (["out/report.pdf", "out/report_1.pdf"] : List String).contains p) 3
      "out/report.pdf" = "out/report_2.pdf" ∧
    (∀ (ex : String → Bool) (fuel : Nat) (folder filename tempDir : String),
      (runFinishMove ex fuel folder filename tempDir 0).map Prod.fst =
        some (pjoin tempDir filename)) := by
  refine ⟨?_, by decide, ?_⟩
  · intro ex fuel fp k hk1 hkf hfree hex
    obtain ⟨ha, hb, hc⟩ :=
      findFree_least ex (splitext fp).1 (splitext fp).2 fuel 1 k hk1 (by omega) hfree
    refine ⟨findFree ex (splitext fp).1 (splitext fp).2 fuel 1, ?_, ha, hb, hc⟩
    unfold resolvedPath
    rw [if_pos hex]
  · intro ex fuel folder filename tempDir
    rfl

/-- C4 witness: the least-free-suffix property discharged at the concrete
filesystem where `out/report.pdf` and `out/report_1.pdf` exist. -/
theorem c4_collision_suffix_witness :
    ∃ m,
      resolvedPath
        (fun p => (["out/report.pdf", "out/report_1.pdf"] : List String).contains p) 3
        "out/report.pdf" =
        suffixed (splitext "out/report.pdf").1 (splitext "out/report.pdf").2 m ∧
      1 ≤ m ∧
      (["out/report.pdf", "out/report_1.pdf"] : List String).contains
        (suffixed (splitext "out/report.pdf").1 (splitext "out/report.pdf").2 m) = false ∧
      ∀ j, 1 ≤ j → j < m →
        (["out/report.pdf", "out/report_1.pdf"] : List String).contains
          (suffixed (splitext "out/report.pdf").1 (splitext "out/report.pdf").2 j) = true :=
  c4_collision_suffix.1
    (fun p => (["out/report.pdf", "out/report_1.pdf"] : List String).contains p) 3
    "out/report.pdf" 2 (by decide) (by decide) (by decide) (by decide)

/-- C1: after a zero exit code the supervisor emits the final
`PercentUpdate(100)`, clears the speed text, zeroes the ETA text, moves the
staged file from the staging directory to the collision-resolved destination
path, and emits the success event carrying that (possibly suffixed) path;
when the move raises it emits one failure event carrying the cause and no
success event; after a non-zero exit code `rc` it emits a failure event whose
reason text contains `rc`. -/
theorem c1_terminal_behaviour :
    (∀ (ex : String → Bool) (fuel : Nat) (folder filename tempDir : String),
      runFinishEvents ex fuel folder filename 0 none =
        [Ev.progress 100, Ev.speed "", Ev.eta "00:00:00",
         Ev.status "다운로드 완료, 파일 이동 중...",
         Ev.finished (resolvedPath ex fuel (pjoin folder filename)),
         Ev.status "완료"] ∧
      runFinishMove ex fuel folder filename tempDir 0 =
        some (pjoin tempDir filename, resolvedPath ex fuel (pjoin folder filename))) ∧
    (∀ (ex : String → Bool) (fuel : Nat) (folder filename e : String),
      runFinishEvents ex fuel folder filename 0 (some e) =
        [Ev.progress 100, Ev.speed "", Ev.eta "00:00:00",
         Ev.status "다운로드 완료, 파일 이동 중...",
         Ev.failed ("파일 이동 실패: " ++ e), Ev.status "이동 실패"] ∧
      countFinished (runFinishEvents ex fuel folder filename 0 (some e)) = 0) ∧
    (∀ (ex : String → Bool) (fuel : Nat) (folder filename : String)
        (rc : Int) (moveErr : Option String),
      rc ≠ 0 →
      runFinishEvents ex fuel folder filename rc moveErr =
        [Ev.failed ("aria2c 실패 (코드 " ++ toString rc ++ ")"),
         Ev.status ("실패 (코드 " ++ toString rc ++ ")")] ∧
      (∃ pre post, "aria2c 실패 (코드 " ++ toString rc ++ ")" =
        pre ++ toString rc ++ post) ∧
      countFinished (runFinishEvents ex fuel folder filename rc moveErr) = 0) := by
  refine ⟨?_, ?_, ?_⟩
  · intro ex fuel folder filename tempDir
    exact ⟨rfl, rfl⟩
  · intro ex fuel folder filename e
    exact ⟨rfl, rfl⟩
  · intro ex fuel folder filename rc moveErr hrc
    have hev : runFinishEvents ex fuel folder filename rc moveErr =
        [Ev.failed ("aria2c 실패 (코드 " ++ toString rc ++ ")"),
         Ev.status ("실패 (코드 " ++ toString rc ++ ")")] := by
      unfold runFinishEvents
      rw [if_neg hrc]
    refine ⟨hev, ⟨"aria2c 실패 (코드 ", ")", rfl⟩, ?_⟩
    rw [hev]
    rfl

/-- C1 witness: the non-zero exit branch discharged at `rc = 1`. -/
theorem c1_terminal_behaviour_witness :
    runFinishEvents (fun _ => false) 0 "/dst" "f.bin" 1 none =
      [Ev.failed ("aria2c 실패 (코드 " ++ toString (1 : Int) ++ ")"),
       Ev.status ("실패 (코드 " ++ toString (1 : Int) ++ ")")] ∧
    (∃ pre post, "aria2c 실패 (코드 " ++ toString (1 : Int) ++ ")" =
      pre ++ toString (1 : Int) ++ post) ∧
    countFinished (runFinishEvents (fun _ => false) 0 "/dst" "f.bin" 1 none) = 0 :=
  c1_terminal_behaviour.2.2 (fun _ => false) 0 "/dst" "f.bin" 1 none (by decide)

theorem countFailed_append (a b : List Ev) :
    countFailed (a ++ b) = countFailed a + countFailed b := by
  unfold countFailed
  rw [List.filter_append, List.length_append]

theorem countFailed_lineEvents (t : String) : countFailed (lineEvents t) = 0 := by
  unfold lineEvents
  cases linePercent t <;> cases lineSpeed t <;> cases lineEta t <;>
    by_cases ht : 0 < t.length <;>
    simp [ht, countFailed, List.filter_append]

theorem countFailed_flatMap (lines : List String) :
    countFailed (lines.flatMap lineEvents) = 0 := by
  induction lines with
  | nil => rfl
  | cons l rest ih =>
    rw [List.flatMap_cons, countFailed_append, countFailed_lineEvents, ih]

theorem countFailed_runFinishEvents (ex : String → Bool) (fuel : Nat)
    (folder filename : String) (rc : Int) (moveErr : Option String) :
    countFailed (runFinishEvents ex fuel folder filename rc moveErr) =
      if rc = 0 then (if moveErr.isSome then 1 else 0) else 1 := by
  unfold runFinishEvents
  by_cases hrc : rc = 0
  · rw [if_pos hrc, if_pos hrc]
    cases moveErr <;> rfl
  · rw [if_neg hrc, if_neg hrc]
    rfl

/-- C7: every failing run — spawn failure, streaming exception, non-zero
exit, or failed move after a zero exit — produces exactly one failure event,
and a non-failing run produces none; the child is forcibly killed exactly
on the streaming-exception path; and across a worker's whole job list the
number of failure events equals the number of failing jobs, every job being
processed regardless of earlier failures. -/
theorem c7_failure_isolation :
    (∀ (ex : String → Bool) (fuel : Nat) (folder filename : String)
        (o : RunOutcome),
      countFailed (workerJobEvents ex fuel folder filename o) =
        if isFailureOutcome o = true then 1 else 0) ∧
    (∀ (lines : List String) (m : String),
      superviseKilled (RunOutcome.streamExc lines m) = true) ∧
    (∀ (ex : String → Bool) (fuel : Nat) (jobs : List JobRun),
      countFailed (workerRunAll ex fuel jobs) =
        (jobs.filter fun j => isFailureOutcome j.outcome).length) := by
  have hjob : ∀ (ex : String → Bool) (fuel : Nat) (folder filename : String)
      (o : RunOutcome),
      countFailed (workerJobEvents ex fuel folder filename o) =
        if isFailureOutcome o = true then 1 else 0 := by
    intro ex fuel folder filename o
    cases o with
    | spawnFail m => rfl
    | streamExc lines m =>
      show countFailed (([Ev.status startMsg] ++ lines.flatMap lineEvents ++
        [Ev.failed m, Ev.status ("예외: " ++ m)]) ++ []) = 1
      rw [countFailed_append, countFailed_append, countFailed_append,
        countFailed_flatMap]
      rfl
    | exited lines rc moveErr =>
      show countFailed (([Ev.status startMsg] ++ lines.flatMap lineEvents ++
        runFinishEvents ex fuel folder filename rc moveErr) ++ []) = _
      rw [countFailed_append, countFailed_append, countFailed_append,
        countFailed_flatMap, countFailed_runFinishEvents]
      by_cases hrc : rc = 0
      · cases moveErr <;> simp [hrc, isFailureOutcome, countFailed]
      · simp [hrc, isFailureOutcome, countFailed]
  refine ⟨hjob, fun lines m => rfl, ?_⟩
  intro ex fuel jobs
  induction jobs with
  | nil => rfl
  | cons j rest ih =>
    show countFailed (workerJobEvents ex fuel j.folder j.filename j.outcome ++
      workerRunAll ex fuel rest) = _
    rw [countFailed_append, hjob, ih, List.filter_cons]
    by_cases hf : isFailureOutcome j.outcome = true
    · rw [if_pos hf, if_pos hf, List.length_cons]
      omega
    · rw [if_neg hf, if_neg hf]
      simp

/-- C2 counterexample: with `http://u` active (queued) in `st0`, the resume
entry point does not fail with a duplicate error — it creates and enqueues a
new job for the same URL. -/
theorem c2_resume_duplicate_cex :
    (addTaskOnResume st0 "http://u" "/d").2 ≠ SubmitOutcome.duplicateUrl ∧
    (addTaskOnResume st0 "http://u" "/d").2 = SubmitOutcome.added 1 ∧
    (addTaskOnResume st0 "http://u" "/d").1.queued.length =
      st0.queued.length + 1 := by decide

/-- C2 (amended): the new-task entry point rejects a non-empty URL already in
the active set synchronously, creating no job; the resume entry point
performs no duplicate check and always creates and enqueues a job, active or
not; a terminal event removes the job's non-empty URL from the active set
(the `if url:` guard skips empty URLs); and a URL
that is no longer active (and whose destination file does not exist) is
accepted again by the new-task entry point. -/
theorem c2_duplicate_handling :
    (∀ (ex : String → Bool) (st : UIState) (u d : String),
      u ≠ "" → u ∈ st.activeUrls →
      addTaskFromInput ex st u d = (st, SubmitOutcome.duplicateUrl)) ∧
    (∀ (st : UIState) (u d : String),
      (addTaskOnResume st u d).2 = SubmitOutcome.added st.nextId ∧
      (addTaskOnResume st u d).1.queued =
        st.queued ++ [(st.nextId, u, d, getFilenameFromUrl u)]) ∧
    (∀ (st : UIState) (id : Nat) (u : String),
      u ≠ "" → st.urlById.lookup id = some u →
      u ∉ (discardUrl st id).activeUrls) ∧
    (∀ (ex : String → Bool) (st : UIState) (u d : String),
      u ≠ "" → u ∉ st.activeUrls → ex (pjoin d (getFilenameFromUrl u)) = false →
      (addTaskFromInput ex st u d).2 = SubmitOutcome.added st.nextId) := by
  refine ⟨?_, ?_, ?_, ?_⟩
  · intro ex st u d hne hmem
    unfold addTaskFromInput
    rw [if_neg hne, if_pos hmem]
  · intro st u d
    exact ⟨rfl, rfl⟩
  · intro st id u hne hl
    unfold discardUrl
    rw [hl]
    simp only []
    rw [if_neg hne]
    simp
  · intro ex st u d hne hmem hex
    simp [addTaskFromInput, addTask, hne, hmem, hex]

/-- C2 witness: the duplicate rejection, the active-set removal and the
re-acceptance discharged on the concrete state `st0`. -/
theorem c2_duplicate_handling_witness :
    addTaskFromInput (fun _ => false) st0 "http://u" "/d" =
      (st0, SubmitOutcome.duplicateUrl) ∧
    "http://u" ∉ (discardUrl st0 0).activeUrls ∧
    (addTaskFromInput (fun _ => false) (discardUrl st0 0) "http://u" "/d").2 =
      SubmitOutcome.added (discardUrl st0 0).nextId :=
  ⟨c2_duplicate_handling.1 (fun _ => false) st0 "http://u" "/d"
      (by decide) (by decide),
   c2_duplicate_handling.2.2.1 st0 0 "http://u" (by decide) (by decide),
   c2_duplicate_handling.2.2.2 (fun _ => false) (discardUrl st0 0) "http://u" "/d"
      (by decide) (by decide) (by decide)⟩

/-- C3: the new-task path rejects the submission when the destination file
`dir/filename` already exists, leaving the state unchanged and enqueuing
nothing, while the resume path takes no existence predicate at all and
always constructs and enqueues the job. -/
theorem c3_precheck_policy :
    (∀ (ex : String → Bool) (st : UIState) (u d : String),
      ex (pjoin d (getFilenameFromUrl u)) = true →
      addTask ex st u d = (st, SubmitOutcome.fileExists)) ∧
    (∀ (st : UIState) (u d : String),
      (addTaskOnResume st u d).2 = SubmitOutcome.added st.nextId ∧
      (addTaskOnResume st u d).1.queued =
        st.queued ++ [(st.nextId, u, d, getFilenameFromUrl u)] ∧
      (addTaskOnResume st u d).1.nextId = st.nextId + 1) := by
  constructor
  · intro ex st u d hex
    simp [addTask, hex]
  · intro st u d
    exact ⟨rfl, rfl, rfl⟩

/-- C3 witness: the rejection discharged with an existence predicate that
holds everywhere. -/
theorem c3_precheck_policy_witness :
    addTask (fun _ => true) st0 "http://v" "/d" = (st0, SubmitOutcome.fileExists) :=
  c3_precheck_policy.1 (fun _ => true) st0 "http://v" "/d" rfl

/-- The query parameter's value, as parsed, is the form-decoded reading of
the raw query text (`+` as space): the "value of the designated query key"
returned by the resolver is the parsed parameter value used unchanged. -/
theorem qsFirst_r34_decoded :
    rawQueryValue (urlparse r34url).query "download_filename" = some "a+b.mp4" ∧
    qsFirst (urlparse r34url).query "download_filename" = some "a b.mp4" := by decide

/-- C6: when the URL's host is the fixed known host and the parsed query
parameters contain the designated key, its value is returned unchanged (the
parsed value of a standard query parser: split on `&`/`=`, blank values
dropped, `+` and percent-escapes form-decoded); otherwise the last path
segment with any text from `?` on stripped, or `"download"` when the segment
is empty; in particular the two concrete examples of the spec. -/
theorem c6_filename_resolver :
    (∀ (url v : String),
      (urlparse url).netloc = "rule34video.com" →
      qsFirst (urlparse url).query "download_filename" = some v →
      getFilenameFromUrl url = v) ∧
    (∀ url : String,
      ((urlparse url).netloc ≠ "rule34video.com" ∨
        qsFirst (urlparse url).query "download_filename" = none) →
      getFilenameFromUrl url =
        (if pbasename (urlparse url).path = "" then "download"
         else ⟨(pbasename (urlparse url).path).data.takeWhile (fun c => c ≠ '?')⟩)) ∧
    getFilenameFromUrl "https://example.com/dir/file.zip?x=1" = "file.zip" ∧
    getFilenameFromUrl "https://example.com/" = "download" := by
  refine ⟨?_, ?_, by decide, by decide⟩
  · intro url v h1 h2
    simp [getFilenameFromUrl, h1, h2]
  · intro url h
    rcases h with h | h
    · simp [getFilenameFromUrl, h]
    · by_cases hn : (urlparse url).netloc = "rule34video.com"
      · simp [getFilenameFromUrl, hn, h]
      · simp [getFilenameFromUrl, hn]

/-- C6 witness: the override branch discharged at the concrete known-host
URL, and the fallback branch at a plain URL. -/
theorem c6_filename_resolver_witness :
    getFilenameFromUrl r34url = "a b.mp4" ∧
    getFilenameFromUrl "https://example.com/x" =
      (if pbasename (urlparse "https://example.com/x").path = "" then "download"
       else ⟨(pbasename (urlparse "https://example.com/x").path).data.takeWhile
          (fun c => c ≠ '?')⟩) :=
  ⟨c6_filename_resolver.1 r34url "a b.mp4" (by decide) (by decide),
   c6_filename_resolver.2.1 "https://example.com/x" (Or.inl (by decide))⟩

theorem addTaskOnResume_queued_length (st : UIState) (u d : String) :
    (addTaskOnResume st u d).1.queued.length = st.queued.length + 1 := by
  simp [addTaskOnResume]

theorem replayAll_queued_length (ts : List TaskRec) :
    ∀ st : UIState,
      (replayAll st ts).queued.length = st.queued.length + ts.length := by
  induction ts with
  | nil =>
    intro st
    rfl
  | cons t rest ih =>
    intro st
    show (replayAll (addTaskOnResume st t.url t.savePath).1 rest).queued.length = _
    rw [ih, addTaskOnResume_queued_length, List.length_cons]
    omega

/-- C10: loading a stored record list replays it exactly once — one
resume-submission per record, in order — and clears the persisted slot, so
an immediately repeated call finds a falsy slot, replays nothing and leaves
the state untouched. -/
theorem c10_load_and_clear (ts : List TaskRec) (st : UIState) :
    (loadSavedTasks (some ts) st).1 = none ∧
    (loadSavedTasks (some ts) st).2.2 = ts ∧
    (loadSavedTasks (some ts) st).2.1 = replayAll st ts ∧
    loadSavedTasks (loadSavedTasks (some ts) st).1 (loadSavedTasks (some ts) st).2.1 =
      (none, replayAll st ts, []) ∧
    (replayAll st ts).queued.length = st.queued.length + ts.length :=
  ⟨rfl, rfl, rfl, rfl, replayAll_queued_length ts st⟩

end Aria2
